import Mathlib

/-!
# Verification of the GROUP-BY / aggregation evaluator (`query/groupby.go`)

Shallow embedding of the group-by evaluator of the graph query engine:
the deduplication index (`dedup`, `uniq`, `addValue`, `getGroup`), the
cross-product group builder (`formGroups`), the per-group aggregator
(`aggregateChild`, `aggregateGroup`), the deterministic orderer
(`groupLess`), the variable binder (`fillGroupedVars`) and the top-level
driver (`processGroupBy`).

External collaborators that the Go code consumes from other packages
(the typed-value adapter `types.Marshal` / `types.Less` /
`convertTo` / `convertWithBestEffort`, the aggregate-function registry
`isAggregatorFn`, and the reducer `aggregator`) are declared opaque by the
specification ("consumed as an opaque typed-value abstraction").  They are
modelled as fields of an `Ext` record that every embedded operation takes
as a parameter; concrete witnesses instantiate them.

Go maps (`uniq.elements`, `tempMap`, `doneVars`, `valueMatrix`,
`uidMatrix`) are modelled as association lists in insertion order
(respectively as functions for the matrices); Go's random map iteration
order is fixed to insertion order, which is sound for every claim here
because none depends on a particular bucket-entry order.
-/

namespace GroupBy

/-- Type tags of the typed-value adapter.  Only the tags this file
inspects are distinguished; every other tag is `OtherID`. -/
inductive TypeID where
  | UidID
  | IntID
  | StringID
  | OtherID
  deriving DecidableEq

/-- The payload of a Go `types.Val` (an `interface{}` in Go).  `uidV`
is a `uint64` entity identifier, `intV` an `int64`, `strV` a string;
`otherV n` stands for any other payload (tagged to keep equality
decidable). -/
inductive GoValue where
  | uidV (n : Nat)
  | intV (n : Int)
  | strV (s : String)
  | otherV (n : Nat)
  deriving DecidableEq

/-- `types.Val`: a type tag together with a payload. -/
structure Val where
  tid : TypeID
  value : GoValue
  deriving DecidableEq

/-- `groupPair`: either a grouping-key component or an aggregate result. -/
structure groupPair where
  key : Val
  attr : String
  deriving DecidableEq

/-- `groupResult`: one group (key list, aggregate list, identifier list). -/
structure groupResult where
  keys : List groupPair
  aggregates : List groupPair
  uids : List Nat
  deriving DecidableEq

/-- `groupResults`: the groups produced for one row of the result matrix. -/
structure groupResults where
  group : List groupResult
  deriving DecidableEq

/-- `groupElements`: one entry of a bucket — the representative value and
the identifier list recorded under one canonical key. -/
structure groupElements where
  key : Val
  entities : List Nat
  deriving DecidableEq

/-- `uniq`: one grouping-attribute bucket — the attribute name and the map
from canonical key to `groupElements` (modelled as an association list in
insertion order). -/
structure uniq where
  elements : List (String × groupElements)
  attr : String
  deriving DecidableEq

/-- `dedup`: the ordered sequence of buckets, one per grouping attribute. -/
structure dedup where
  groups : List uniq
  deriving DecidableEq

/-- The external collaborators, per the spec's "opaque typed-value
abstraction", "identifier-collection abstraction" and "function-name
registry".
* `marshal v`: `types.Marshal(v, &stringVal)` — `none` means the marshal
  errored (the canonical-string serialization that may fail).
* `less a b`: `types.Less(a, b)` returning the Go pair
  `(bool, error ≠ nil)`; the second component is `true` iff the
  comparison errored.
* `convertTo v`: the fallible conversion of a stored posting value to a
  `types.Val`.
* `convertBE v attr`: `convertWithBestEffort(v, attr)` — `none` means the
  coercion failed and the value is skipped.
* `isAgg f`: `isAggregatorFn(f)`.
* `aggFinal f v vs`: the final value of the reducer `aggregator{name: f}`
  after applying `v :: vs` (nonempty input), which may still error. -/
structure Ext where
  marshal : Val → Option String
  less : Val → Val → Bool × Bool
  convertTo : Val → Except String Val
  convertBE : Val → String → Option Val
  isAgg : String → Bool
  aggFinal : String → Val → List Val → Except String Val

/-! ## Deduplication index -/

/-- Index of the bucket `getGroup` finds for `attr`: the Go loop runs from
the last bucket to the first and takes the first match, so the *last*
matching index wins. -/
def getGroupIdx : List uniq → String → Option Nat
  | [], _ => none
  | g :: gs, a =>
    match getGroupIdx gs a with
    | some i => some (i + 1)
    | none => if g.attr = a then some 0 else none

/-- Replace the element at position `i` (out-of-range: no change). -/
def updateAt {α : Type} : List α → Nat → (α → α) → List α
  | [], _, _ => []
  | x :: xs, 0, f => f x :: xs
  | x :: xs, n + 1, f => x :: updateAt xs n f

/-- First-match association-list lookup (`cur.elements[strKey]`). -/
def lookupA {α : Type} : List (String × α) → String → Option α
  | [], _ => none
  | (k', v) :: rest, k => if k' = k then some v else lookupA rest k

/-- The body of `addValue` past the key computation: ensure an entry for
`strKey` exists (creating it with representative value `v` and an empty
identifier list) and append `uid` to its identifier list. -/
def addUidToKey : List (String × groupElements) → String → Val → Nat →
    List (String × groupElements)
  | [], k, v, uid => [(k, ⟨v, [uid]⟩)]
  | (k', e) :: rest, k, v, uid =>
    if k' = k then (k', ⟨e.key, e.entities ++ [uid]⟩) :: rest
    else (k', e) :: addUidToKey rest k v uid

/-- The canonical ("string") key of a value: the decimal string of the
identifier when the type tag is `UidID`, otherwise the marshaled string.
The Go code's `value.Value.(uint64)` type assertion panics when a
`UidID`-tagged value does not hold a `uint64`; that (unreachable for the
well-typed values this file ever constructs) branch is modelled as `none`
(the triple is dropped), so the theorems below describe the non-panicking
executions. -/
def strKeyOf (E : Ext) (v : Val) : Option String :=
  if v.tid = TypeID.UidID then
    match v.value with
    | GoValue.uidV n => some (toString n)
    | _ => none
  else E.marshal v

/-- `dedup.addValue(attr, value, uid)`.  Note the Go code first calls
`d.getGroup(attr)` — which appends a fresh empty bucket when `attr` has
none — and only then computes the string key; when the key computation
fails it returns with the freshly appended bucket retained. -/
def addValue (E : Ext) (d : dedup) (attr : String) (value : Val) (uid : Nat) :
    dedup :=
  let p : List uniq × Nat :=
    match getGroupIdx d.groups attr with
    | some i => (d.groups, i)
    | none => (d.groups ++ [⟨[], attr⟩], d.groups.length)
  match strKeyOf E value with
  | none => ⟨p.1⟩
  | some strKey =>
    ⟨updateAt p.1 p.2 (fun g => ⟨addUidToKey g.elements strKey value uid, g.attr⟩)⟩

/-! ## Cross-product group builder -/

/-- `algo.IntersectWith(cur, entities, temp)`: the external sorted
identifier-collection intersection, modelled as the order-preserving
filter of the first list by membership in the second. -/
def intersectWith (a b : List Nat) : List Nat :=
  a.filter (fun u => b.contains u)

/-- The recursion of `formGroups`.  The `fuel` argument only bounds the
recursion depth so the definition is structural (each recursive call
consumes one bucket, exactly as the Go recursion pushes one key, so any
fuel ≥ number-of-unconsumed-buckets computes the Go function; `formGroups`
below supplies it).  The two arms share the Go function's body; the
`fuel = 0` arm can only be reached with buckets still unconsumed when the
initial fuel was insufficient, which `formGroups` never does. -/
def formGroupsGo (d : List uniq) : Nat → List Nat → List groupPair →
    List groupResult
  | 0, cur, gv =>
    if d.length = 0 ∨ (gv.length ≠ 0 ∧ cur.length = 0) then []
    else if gv.length = d.length then
      [{ keys := gv, aggregates := [], uids := cur }]
    else []
  | fuel + 1, cur, gv =>
    if d.length = 0 ∨ (gv.length ≠ 0 ∧ cur.length = 0) then []
    else if gv.length = d.length then
      [{ keys := gv, aggregates := [], uids := cur }]
    else if h : gv.length < d.length then
      (d[gv.length]).elements.flatMap
        (fun kv =>
          formGroupsGo d fuel
            (if gv.length = 0 then kv.2.entities
             else intersectWith cur kv.2.entities)
            (gv ++ [{ key := kv.2.key, attr := (d[gv.length]).attr }]))
    else []

/-- `groupResults.formGroups(dedupMap, cur, groupVal)`: the list of
`groupResult`s appended to `res.group` by the call. -/
def formGroups (d : List uniq) (cur : List Nat) (gv : List groupPair) :
    List groupResult :=
  formGroupsGo d (d.length - gv.length) cur gv

/-! ## Specification-side description of the cross-product builder -/

/-- All ways to choose one bucket entry per bucket, in bucket order; the
enumeration order (outer: entry order of the first bucket, inner:
completions) matches the builder's depth-first recursion. -/
def choices : List uniq → List (List groupElements)
  | [] => [[]]
  | b :: rest => (b.elements.map Prod.snd).flatMap
      (fun e => (choices rest).map (e :: ·))

/-- Running identifier intersection of the chosen entries, starting from
`cur`. -/
def foldInter (cur : List Nat) (c : List groupElements) : List Nat :=
  c.foldl (fun a e => intersectWith a e.entities) cur

/-- The identifier intersection of a (nonempty) tuple of chosen entries:
the first entry's list intersected with each following entry's list. -/
def interAll : List groupElements → List Nat
  | [] => []
  | e :: rest => foldInter e.entities rest

/-- The key list a tuple of chosen entries contributes: one
`(representative value, bucket attribute)` pair per bucket, in bucket
order. -/
def keysOf (bs : List uniq) (c : List groupElements) : List groupPair :=
  (bs.zip c).map (fun p => { key := p.2.key, attr := p.1.attr })

theorem choices_cons (b : uniq) (rest : List uniq) :
    choices (b :: rest) =
      (b.elements.map Prod.snd).flatMap
        (fun e => (choices rest).map (e :: ·)) := rfl

theorem intersectWith_nil (b : List Nat) : intersectWith [] b = [] := rfl

theorem foldInter_nil (c : List groupElements) : foldInter [] c = [] := by
  induction c with
  | nil => rfl
  | cons e rest ih =>
    simp only [foldInter, List.foldl_cons, intersectWith_nil]
    exact ih

theorem choices_length (bs : List uniq) :
    ∀ c ∈ choices bs, c.length = bs.length := by
  induction bs with
  | nil => intro c hc; simp [choices] at hc; simp [hc]
  | cons b rest ih =>
    intro c hc
    simp only [choices, List.mem_flatMap, List.mem_map] at hc
    obtain ⟨e, _, c', hc', rfl⟩ := hc
    simp [ih c' hc']

theorem get_append_len {α : Type} (pre : List α) (x : α) (suf : List α)
    (h : pre.length < (pre ++ x :: suf).length) :
    (pre ++ x :: suf)[pre.length] = x := by
  induction pre with
  | nil => rfl
  | cons p ps ih =>
    have h2 : ps.length < (ps ++ x :: suf).length := by
      simp only [List.length_cons, List.length_append] at h ⊢
      omega
    simpa using ih h2

theorem filterMap_flatMap {α β γ : Type} (l : List α) (g : α → List β)
    (f : β → Option γ) :
    (l.flatMap g).filterMap f = l.flatMap (fun a => (g a).filterMap f) := by
  induction l with
  | nil => rfl
  | cons a l ih => simp [List.flatMap_cons, List.filterMap_append, ih]

theorem foldInter_cons (cur : List Nat) (e : groupElements)
    (c : List groupElements) :
    foldInter cur (e :: c) = foldInter (intersectWith cur e.entities) c := rfl

theorem keysOf_cons (b : uniq) (bs : List uniq) (e : groupElements)
    (c : List groupElements) :
    keysOf (b :: bs) (e :: c) =
      { key := e.key, attr := b.attr } :: keysOf bs c := rfl

/-- The inductive core of the completeness/minimality proof: with at least
one key already chosen (`gv`), buckets `pre` consumed and `suf` remaining,
the builder returns exactly the qualifying completions of the current
running intersection `cur`. -/
theorem formGroupsGo_spec :
    ∀ (suf pre : List uniq) (fuel : Nat) (cur : List Nat)
      (gv : List groupPair),
      gv.length = pre.length → pre ≠ [] → suf.length ≤ fuel →
      formGroupsGo (pre ++ suf) fuel cur gv =
        if cur = [] then []
        else (choices suf).filterMap (fun c =>
          if foldInter cur c = [] then none
          else some { keys := gv ++ keysOf suf c, aggregates := [],
                      uids := foldInter cur c }) := by
  intro suf
  induction suf with
  | nil =>
    intro pre fuel cur gv hlen hpre _
    have hgv : gv.length ≠ 0 := by
      rw [hlen]
      intro hc; exact hpre (List.length_eq_zero.mp hc)
    have hd : gv.length = (pre ++ ([] : List uniq)).length := by
      simp [hlen]
    by_cases hcur : cur = []
    · subst hcur
      cases fuel <;> · rw [formGroupsGo]; simp [hgv, choices, foldInter]
    · have hcl : cur.length ≠ 0 := by
        intro hc; exact hcur (List.length_eq_zero.mp hc)
      cases fuel <;>
        · rw [formGroupsGo]
          simp [hgv, hcl, hd, hcur, hpre, choices, foldInter, keysOf]
  | cons b rest ih =>
    intro pre fuel cur gv hlen hpre hfuel
    have hdlen : (pre ++ b :: rest).length = pre.length + (rest.length + 1) := by
      simp [Nat.add_comm]
    have hgv0 : gv.length ≠ 0 := by
      rw [hlen]
      intro hc; exact hpre (List.length_eq_zero.mp hc)
    by_cases hcur : cur = []
    · subst hcur
      cases fuel <;> · rw [formGroupsGo]; simp [hgv0]
    · have hcl : cur.length ≠ 0 := by
        intro hc; exact hcur (List.length_eq_zero.mp hc)
      have hne : gv.length ≠ (pre ++ b :: rest).length := by
        rw [hdlen, hlen]; omega
      have hlt : gv.length < (pre ++ b :: rest).length := by
        rw [hdlen, hlen]; omega
      obtain ⟨fuel', rfl⟩ : ∃ f', fuel = f' + 1 := by
        cases fuel with
        | zero => simp at hfuel
        | succ f => exact ⟨f, rfl⟩
      have hfuel' : rest.length ≤ fuel' := by
        simp only [List.length_cons] at hfuel; omega
      have hget : (pre ++ b :: rest)[gv.length] = b := by
        have hl2 : pre.length < (pre ++ b :: rest).length := by
          rw [hdlen]; omega
        simp only [hlen]
        exact get_append_len pre b rest hl2
      have hc1 : ¬((pre ++ b :: rest).length = 0 ∨
          (gv.length ≠ 0 ∧ cur.length = 0)) := by
        rw [hdlen]
        simp [hcl]
      -- one unfolding step of the builder
      have lhs_eq : formGroupsGo (pre ++ b :: rest) (fuel' + 1) cur gv =
          b.elements.flatMap (fun kv =>
            formGroupsGo (pre ++ b :: rest) fuel'
              (intersectWith cur kv.2.entities)
              (gv ++ [{ key := kv.2.key, attr := b.attr }])) := by
        rw [formGroupsGo]
        rw [if_neg hc1, if_neg hne, dif_pos hlt]
        simp only [hget, if_neg hgv0]
      rw [if_neg hcur, lhs_eq, choices_cons, filterMap_flatMap,
        List.flatMap_map]
      refine congrArg _ ?hfun
      funext kv
      rw [List.filterMap_map]
      have hassoc : pre ++ b :: rest = (pre ++ [b]) ++ rest := by simp
      have hih := ih (pre ++ [b]) fuel' (intersectWith cur kv.2.entities)
        (gv ++ [groupPair.mk kv.2.key b.attr])
        (by simp [hlen]) (by simp) hfuel'
      rw [hassoc, hih]
      by_cases hemp : intersectWith cur kv.2.entities = []
      · simp [Function.comp, foldInter_cons, hemp, foldInter_nil]
      · rw [if_neg hemp]
        refine congrArg₂ _ ?hf rfl
        funext c
        simp only [Function.comp, foldInter_cons, keysOf_cons]
        by_cases hfc : foldInter (intersectWith cur kv.2.entities) c = []
        · rw [if_pos hfc, if_pos hfc]
        · rw [if_neg hfc, if_neg hfc]
          simp

theorem interAll_cons (e : groupElements) (c : List groupElements) :
    interAll (e :: c) = foldInter e.entities c := rfl

/-- Claim C1 (theorem): invoked on buckets `B1..Bn` (`n ≥ 1`) with an empty
current list and no accumulated keys, `formGroups` appends exactly one
`groupResult` per `n`-tuple of per-bucket entries whose running identifier
intersection is non-empty; each appended result carries one key per bucket
in bucket order and the non-empty intersection as its uid list; with zero
buckets nothing is appended; and every appended result has exactly `n`
keys and a non-empty uid list. -/
theorem claim_C1 (bs : List uniq) (hbs : bs ≠ []) :
    (formGroups bs [] [] = (choices bs).filterMap (fun c =>
        if interAll c = [] then none
        else some { keys := keysOf bs c, aggregates := [],
                    uids := interAll c }))
    ∧ (∀ (cur : List Nat) (gv : List groupPair), formGroups [] cur gv = [])
    ∧ (∀ g ∈ formGroups bs [] [], g.keys.length = bs.length ∧ g.uids ≠ []) := by
  have hzero : ∀ (cur : List Nat) (gv : List groupPair),
      formGroups [] cur gv = [] := by
    intro cur gv
    unfold formGroups
    have hf : ([] : List uniq).length - gv.length = 0 := by simp
    rw [hf, formGroupsGo]
    simp
  have hmain : formGroups bs [] [] = (choices bs).filterMap (fun c =>
      if interAll c = [] then none
      else some { keys := keysOf bs c, aggregates := [],
                  uids := interAll c }) := by
    obtain ⟨b, rest, rfl⟩ : ∃ b rest, bs = b :: rest := by
      cases bs with
      | nil => exact absurd rfl hbs
      | cons b rest => exact ⟨b, rest, rfl⟩
    unfold formGroups
    have hf : (b :: rest).length - ([] : List groupPair).length
        = rest.length + 1 := by simp
    rw [hf, formGroupsGo]
    have hc1 : ¬((b :: rest).length = 0 ∨
        (([] : List groupPair).length ≠ 0 ∧ ([] : List Nat).length = 0)) := by
      simp
    rw [if_neg hc1]
    have hc2 : ([] : List groupPair).length ≠ (b :: rest).length := by simp
    rw [if_neg hc2]
    have hlt : ([] : List groupPair).length < (b :: rest).length := by simp
    rw [dif_pos hlt]
    simp only [List.length_nil, List.getElem_cons_zero, if_pos rfl,
      eq_self_iff_true, if_true, List.nil_append]
    rw [choices_cons, filterMap_flatMap, List.flatMap_map]
    refine congrArg _ ?hfun
    funext kv
    rw [List.filterMap_map]
    have hih := formGroupsGo_spec rest [b] rest.length kv.2.entities
      [groupPair.mk kv.2.key b.attr] (by simp) (by simp) (Nat.le_refl _)
    have hassoc : ([b] : List uniq) ++ rest = b :: rest := by simp
    rw [hassoc] at hih
    rw [hih]
    by_cases hemp : kv.2.entities = []
    · simp [Function.comp, interAll_cons, hemp, foldInter_nil]
    · rw [if_neg hemp]
      refine congrArg₂ _ ?hf rfl
      funext c
      simp only [Function.comp, interAll_cons, keysOf_cons]
      by_cases hfc : foldInter kv.2.entities c = []
      · rw [if_pos hfc, if_pos hfc]
      · rw [if_neg hfc, if_neg hfc]
        simp
  refine ⟨hmain, hzero, ?hmem⟩
  intro g hg
  rw [hmain, List.mem_filterMap] at hg
  obtain ⟨c, hc, heq⟩ := hg
  by_cases hfc : interAll c = []
  · rw [if_pos hfc] at heq
    exact absurd heq (by simp)
  · rw [if_neg hfc] at heq
    have hgeq : g = groupResult.mk (keysOf bs c) [] (interAll c) := by
      injection heq with h1
      exact h1.symm
    subst hgeq
    refine ⟨?hk, hfc⟩
    simp [keysOf, choices_length bs c hc]

/-- Concrete bucket (attribute `A`, entries `x ↦ [1,2]`, `y ↦ [3]`) used by
the witnesses; together with `bucketB` it is the spec's two-attribute
example. -/
def bucketA : uniq :=
  ⟨[("x", ⟨⟨TypeID.StringID, GoValue.strV "x"⟩, [1, 2]⟩),
    ("y", ⟨⟨TypeID.StringID, GoValue.strV "y"⟩, [3]⟩)], "A"⟩

/-- Concrete bucket (attribute `B`, entries `p ↦ [1,3]`, `q ↦ [2]`). -/
def bucketB : uniq :=
  ⟨[("p", ⟨⟨TypeID.StringID, GoValue.strV "p"⟩, [1, 3]⟩),
    ("q", ⟨⟨TypeID.StringID, GoValue.strV "q"⟩, [2]⟩)], "B"⟩

/-- Witness for C1: the two-bucket example; the builder produces exactly
the three groups `(x,p) ↦ [1]`, `(x,q) ↦ [2]`, `(y,p) ↦ [3]` and prunes
`(y,q)`. -/
theorem claim_C1_witness :
    ([bucketA, bucketB] : List uniq) ≠ [] ∧
    ((formGroups [bucketA, bucketB] [] [] =
        (choices [bucketA, bucketB]).filterMap (fun c =>
          if interAll c = [] then none
          else some { keys := keysOf [bucketA, bucketB] c, aggregates := [],
                      uids := interAll c }))
      ∧ (∀ (cur : List Nat) (gv : List groupPair), formGroups [] cur gv = [])
      ∧ (∀ g ∈ formGroups [bucketA, bucketB] [] [],
          g.keys.length = ([bucketA, bucketB] : List uniq).length ∧
          g.uids ≠ [])) ∧
    formGroups [bucketA, bucketB] [] [] =
      [ groupResult.mk [⟨⟨TypeID.StringID, GoValue.strV "x"⟩, "A"⟩,
          ⟨⟨TypeID.StringID, GoValue.strV "p"⟩, "B"⟩] [] [1],
        groupResult.mk [⟨⟨TypeID.StringID, GoValue.strV "x"⟩, "A"⟩,
          ⟨⟨TypeID.StringID, GoValue.strV "q"⟩, "B"⟩] [] [2],
        groupResult.mk [⟨⟨TypeID.StringID, GoValue.strV "y"⟩, "A"⟩,
          ⟨⟨TypeID.StringID, GoValue.strV "p"⟩, "B"⟩] [] [3] ] :=
  ⟨by decide, claim_C1 [bucketA, bucketB] (by decide), by decide⟩

/-! ## Deterministic orderer -/

/-- The shared body of the two comparison loops of `groupLess`: walk the
paired positions in order.  At each position compute
`l, err := types.Less(aᵢ, bᵢ)`; when it errors fall through to the next
position; when it succeeds with `true` return `true`; otherwise compute
`l, _ = types.Less(bᵢ, aᵢ)` (error discarded, Go's zero-value result used)
and when that yields `true` return `false` (Go's `return !l`); `none`
means the loop fell through every position. -/
def cmpPairs (E : Ext) : List (groupPair × groupPair) → Option Bool
  | [] => none
  | (x, y) :: rest =>
    match E.less x.key y.key with
    | (l, false) =>
      if l then some true
      else if (E.less y.key x.key).1 then some false
      else cmpPairs E rest
    | (_, true) => cmpPairs E rest

/-- `groupLess(a, b)`.  The two loops index `a`'s lists; they are only
reached when the corresponding lists of `a` and `b` have equal length
(the Go code would panic otherwise), so pairing by `zip` is exact. -/
def groupLess (E : Ext) (a b : groupResult) : Bool :=
  if a.uids.length < b.uids.length then true
  else if a.uids.length ≠ b.uids.length then false
  else if a.keys.length < b.keys.length then true
  else if a.keys.length ≠ b.keys.length then false
  else if a.aggregates.length < b.aggregates.length then true
  else if a.aggregates.length ≠ b.aggregates.length then false
  else
    match cmpPairs E (a.keys.zip b.keys) with
    | some r => r
    | none =>
      match cmpPairs E (a.aggregates.zip b.aggregates) with
      | some r => r
      | none => false

/-- Three-way count comparison: `some true` when the left count is
smaller, `some false` when the counts differ the other way, `none` on a
tie. -/
def ltCount (m n : Nat) : Option Bool :=
  if m < n then some true else if m ≠ n then some false else none

/-- The per-position rule the code actually implements (the amended C4):
a position whose forward comparison errors is tied immediately (no
reverse comparison is consulted); a successful `true` sorts the left
first; after a successful `false` the reverse comparison's boolean (its
error discarded) decides between right-first and tied. -/
def posCmp (E : Ext) (x y : Val) : Option Bool :=
  if (E.less x y).2 then none
  else if (E.less x y).1 then some true
  else if (E.less y x).1 then some false
  else none

/-- Lexicographic combination: the first decided position wins. -/
def lexCmp (E : Ext) (xs ys : List groupPair) : Option Bool :=
  (xs.zip ys).findSome? (fun p => posCmp E p.1.key p.2.key)

/-- Combine two comparison levels: the first decided level wins. -/
def orTie : Option Bool → Option Bool → Option Bool
  | some r, _ => some r
  | none, o => o

/-- The orderer restated declaratively as the claim's level structure
(fewer uids, then fewer keys, then fewer aggregates, then keys
lexicographically, then aggregates, else equal), with the corrected
per-position rule `posCmp`. -/
def groupLessSpec (E : Ext) (a b : groupResult) : Bool :=
  (orTie (ltCount a.uids.length b.uids.length)
    (orTie (ltCount a.keys.length b.keys.length)
      (orTie (ltCount a.aggregates.length b.aggregates.length)
        (orTie (lexCmp E a.keys b.keys)
          (lexCmp E a.aggregates b.aggregates))))).getD false

/-- The per-position rule exactly as claim C4 words it: attempt
left-less-than-right; *on comparison error* attempt right-less-than-left
and invert; a position is tied only when both comparisons error.  (The
success path is the code's, so the two definitions differ only in the
error path — the part the claim gets wrong.) -/
def posCmpClaim (E : Ext) (x y : Val) : Option Bool :=
  if (E.less x y).2 = false then
    (if (E.less x y).1 then some true
     else if (E.less y x).1 then some false
     else none)
  else if (E.less y x).2 = false then some (!(E.less y x).1)
  else none

/-- Lexicographic combination of the claim-worded position rule. -/
def lexCmpClaim (E : Ext) (xs ys : List groupPair) : Option Bool :=
  (xs.zip ys).findSome? (fun p => posCmpClaim E p.1.key p.2.key)

/-- Claim C4's comparison, as stated (same level structure, claim-worded
position rule). -/
def groupLessClaim (E : Ext) (a b : groupResult) : Bool :=
  (orTie (ltCount a.uids.length b.uids.length)
    (orTie (ltCount a.keys.length b.keys.length)
      (orTie (ltCount a.aggregates.length b.aggregates.length)
        (orTie (lexCmpClaim E a.keys b.keys)
          (lexCmpClaim E a.aggregates b.aggregates))))).getD false

theorem cmpPairs_eq_findSome (E : Ext) (l : List (groupPair × groupPair)) :
    cmpPairs E l = l.findSome? (fun p => posCmp E p.1.key p.2.key) := by
  induction l with
  | nil => rfl
  | cons p rest ih =>
    obtain ⟨x, y⟩ := p
    rw [List.findSome?_cons]
    cases hxy : E.less x.key y.key with
    | mk l e =>
      cases e
      · cases l
        · by_cases h2 : (E.less y.key x.key).1
          · simp [cmpPairs, posCmp, hxy, h2]
          · simp [cmpPairs, posCmp, hxy, h2, ih]
        · simp [cmpPairs, posCmp, hxy]
      · simp [cmpPairs, posCmp, hxy, ih]

/-- Counterexample values for C4: tagged integers whose comparison
behaviour is scripted by `lessC4`. -/
def ivC4 (n : Int) : Val := ⟨TypeID.IntID, GoValue.intV n⟩

/-- A scripted external comparison: `less(iv 0, iv 1)` errors while
`less(iv 1, iv 0)` succeeds with `true`; `less(iv 2, iv 3)` succeeds with
`true`; everything else succeeds with `false`. -/
def lessC4 (a b : Val) : Bool × Bool :=
  match a.value, b.value with
  | GoValue.intV 0, GoValue.intV 1 => (false, true)
  | GoValue.intV 1, GoValue.intV 0 => (true, false)
  | GoValue.intV 2, GoValue.intV 3 => (true, false)
  | _, _ => (false, false)

/-- External bundle for the C4 counterexample (only `less` matters). -/
def extC4 : Ext :=
  ⟨fun _ => none, lessC4, fun v => Except.ok v, fun v _ => some v,
   fun _ => false, fun _ v _ => Except.ok v⟩

/-- Left operand of the C4 counterexample. -/
def gaC4 : groupResult := ⟨[⟨ivC4 0, "k1"⟩, ⟨ivC4 2, "k2"⟩], [], []⟩

/-- Right operand of the C4 counterexample. -/
def gbC4 : groupResult := ⟨[⟨ivC4 1, "k1"⟩, ⟨ivC4 3, "k2"⟩], [], []⟩

/-- Counterexample to C4 as stated: at the first key position the forward
comparison errors; the code treats the position as tied and moves on (the
second position then decides `true`), whereas the claim's rule — attempt
the reverse comparison and invert on error — would decide the first
position as right-first and return `false`. -/
theorem claim_C4_counterexample :
    groupLess extC4 gaC4 gbC4 = true ∧
    groupLessClaim extC4 gaC4 gbC4 = false := ⟨rfl, rfl⟩

/-- Claim C4 (amended): `groupLess` consults, in order and each level only
on a tie at the previous level: fewer uids first, fewer keys, fewer
aggregates, then lexicographic comparison of key pairs where each
position attempts "left less than right" — a position whose comparison
*errors* is tied immediately; a successful `true` sorts left first; after
a successful `false` the reverse comparison (error ignored) decides
right-first versus tied — then the same over aggregate pairs, and returns
`false` when everything ties. -/
theorem claim_C4 (E : Ext) (a b : groupResult) :
    groupLess E a b = groupLessSpec E a b := by
  unfold groupLess groupLessSpec
  by_cases h1 : a.uids.length < b.uids.length
  · simp [ltCount, orTie, h1]
  · by_cases h2 : a.uids.length = b.uids.length
    · by_cases h3 : a.keys.length < b.keys.length
      · simp [ltCount, orTie, h1, h2, h3]
      · by_cases h4 : a.keys.length = b.keys.length
        · by_cases h5 : a.aggregates.length < b.aggregates.length
          · simp [ltCount, orTie, h1, h2, h3, h4, h5]
          · by_cases h6 : a.aggregates.length = b.aggregates.length
            · rw [cmpPairs_eq_findSome, cmpPairs_eq_findSome]
              cases hk : List.findSome? (fun p => posCmp E p.1.key p.2.key)
                  (a.keys.zip b.keys) with
              | some r =>
                simp [ltCount, orTie, lexCmp, h1, h2, h3, h4, h5, h6, hk]
              | none =>
                cases ha : List.findSome? (fun p => posCmp E p.1.key p.2.key)
                    (a.aggregates.zip b.aggregates) with
                | some r =>
                  simp [ltCount, orTie, lexCmp, h1, h2, h3, h4, h5, h6, hk, ha]
                | none =>
                  simp [ltCount, orTie, lexCmp, h1, h2, h3, h4, h5, h6, hk, ha]
            · simp [ltCount, orTie, h1, h2, h3, h4, h5, h6]
        · simp [ltCount, orTie, h1, h2, h3, h4]
    · simp [ltCount, orTie, h1, h2]

/-! ## Group aggregator -/

/-- Evaluation errors: the empty-aggregate sentinel `ErrEmptyVal`, or a
message-carrying error (`errors.Errorf`; also used for the modelled
`x.Check` process abort, see `formResult`). -/
inductive gErr where
  | emptyVal
  | msg (s : String)
  deriving DecidableEq

/-- The fields of a child `SubGraph` that the group-by evaluator reads
(the evaluator never descends past its direct children, so the recursive
tree structure is irrelevant).  `aliasName` is `Params.Alias`; the value
and uid matrices are keyed by source identifier, and posting values are
modelled as already-typed `Val`s fed through the external conversions. -/
structure Child where
  aliasName : String
  var : String
  doCount : Bool
  ignoreResult : Bool
  attr : String
  srcFunc : Option String
  srcUIDs : List Nat
  destUIDs : List Nat
  valueMatrix : Nat → List Val
  uidMatrix : Nat → List Nat

/-- The values `aggregateGroup` feeds the reducer: group identifiers
present in the child's source collection, having at least one associated
value, whose first value survives best-effort conversion toward the
child's attribute — in group order. -/
def qualifyingVals (E : Ext) (child : Child) (uids : List Nat) : List Val :=
  uids.filterMap (fun uid =>
    if child.srcUIDs.contains uid then
      match child.valueMatrix uid with
      | [] => none
      | v :: _ => E.convertBE v child.attr
    else none)

/-- `aggregateGroup(grp, child)`: feed the qualifying values into the
reducer `aggregator{name: child.SrcFunc.Name}` and take its final value.
The reducer itself lives outside this file's source; per the spec it
yields the empty-value sentinel iff it received no input, and otherwise a
final value that may still fail (the external `aggFinal`). -/
def aggregateGroup (E : Ext) (name : String) (grp : groupResult)
    (child : Child) : Except gErr Val :=
  match qualifyingVals E child grp.uids with
  | [] => Except.error gErr.emptyVal
  | v :: rest =>
    match E.aggFinal name v rest with
    | Except.ok r => Except.ok r
    | Except.error e => Except.error (gErr.msg e)

/-- `groupResult.aggregateChild(child)`: Go mutates the group in place
and returns an error; modelled as returning the updated group or the
error. -/
def aggregateChild (E : Ext) (grp : groupResult) (child : Child) :
    Except gErr groupResult :=
  if child.doCount then
    if child.attr ≠ "uid" then
      Except.error
        (gErr.msg "Only uid predicate is allowed in count within groupby")
    else
      Except.ok { grp with aggregates := grp.aggregates ++
        [⟨⟨TypeID.IntID, GoValue.intV (grp.uids.length : Int)⟩,
          if child.aliasName = "" then "count" else child.aliasName⟩] }
  else
    match child.srcFunc with
    | some fname =>
      if E.isAgg fname then
        match aggregateGroup E fname grp child with
        | Except.error e => Except.error e
        | Except.ok finalVal =>
          Except.ok { grp with aggregates := grp.aggregates ++
            [⟨finalVal,
              if child.aliasName = "" then fname ++ "(" ++ child.attr ++ ")"
              else child.aliasName⟩] }
      else Except.ok grp
    | none => Except.ok grp

/-- The per-child loop over the groups shared by `formResult` and
`fillGroupedVars`: apply `aggregateChild` to every group in order;
`ErrEmptyVal` leaves that group unchanged and continues; any other error
aborts the evaluation. -/
def aggLoopGroups (E : Ext) (child : Child) :
    List groupResult → Except gErr (List groupResult)
  | [] => Except.ok []
  | g :: gs =>
    match aggregateChild E g child with
    | Except.ok g' => (aggLoopGroups E child gs).map (g' :: ·)
    | Except.error gErr.emptyVal => (aggLoopGroups E child gs).map (g :: ·)
    | Except.error (gErr.msg e) => Except.error (gErr.msg e)

/-- Claim C5: for a count-requesting child (`DoCount` set),
`aggregateChild` returns a usage error iff the child targets a relation
other than the reserved `uid` relation; when it targets `uid` it appends
exactly one integer-typed aggregate pair valued at the number of group
identifiers, named `count` when no alias is given, and returns no
error. -/
theorem claim_C5 (E : Ext) (grp : groupResult) (child : Child)
    (h : child.doCount = true) :
    (child.attr ≠ "uid" →
      aggregateChild E grp child = Except.error
        (gErr.msg "Only uid predicate is allowed in count within groupby"))
    ∧ (child.attr = "uid" →
      aggregateChild E grp child =
        Except.ok { grp with aggregates := grp.aggregates ++
          [⟨⟨TypeID.IntID, GoValue.intV (grp.uids.length : Int)⟩,
            if child.aliasName = "" then "count" else child.aliasName⟩] }) := by
  constructor
  · intro hne
    simp [aggregateChild, h, hne]
  · intro heq
    simp [aggregateChild, h, heq]

/-- A neutral external bundle for witnesses. -/
def extDummy : Ext :=
  ⟨fun _ => none, fun _ _ => (false, false), fun v => Except.ok v,
   fun v _ => some v, fun _ => false, fun _ v _ => Except.ok v⟩

/-- Count child over `uid` with no alias, for the C5 witness. -/
def childC5 : Child :=
  ⟨"", "", true, false, "uid", none, [], [], fun _ => [], fun _ => []⟩

/-- Group with two identifiers, for the C5 witness. -/
def gC5 : groupResult := ⟨[], [], [7, 8]⟩

/-- Witness for C5: counting over `uid` with two identifiers and no alias
appends exactly the pair `("count", int 2)`. -/
theorem claim_C5_witness :
    childC5.doCount = true ∧
    ((childC5.attr ≠ "uid" →
      aggregateChild extDummy gC5 childC5 = Except.error
        (gErr.msg "Only uid predicate is allowed in count within groupby"))
    ∧ (childC5.attr = "uid" →
      aggregateChild extDummy gC5 childC5 =
        Except.ok { gC5 with aggregates := gC5.aggregates ++
          [⟨⟨TypeID.IntID, GoValue.intV (gC5.uids.length : Int)⟩,
            if childC5.aliasName = "" then "count" else childC5.aliasName⟩] })) ∧
    aggregateChild extDummy gC5 childC5 =
      Except.ok ⟨[], [⟨⟨TypeID.IntID, GoValue.intV 2⟩, "count"⟩], [7, 8]⟩ :=
  ⟨rfl, claim_C5 extDummy gC5 childC5 rfl, rfl⟩

/-- Claim C10: a child that neither requests a count nor names a
recognized aggregate function leaves the group entirely unchanged and
returns no error. -/
theorem claim_C10 (E : Ext) (grp : groupResult) (child : Child)
    (h1 : child.doCount = false)
    (h2 : child.srcFunc = none ∨
      ∃ f, child.srcFunc = some f ∧ E.isAgg f = false) :
    aggregateChild E grp child = Except.ok grp := by
  rcases h2 with h2 | ⟨f, hf, hfa⟩
  · simp [aggregateChild, h1, h2]
  · simp [aggregateChild, h1, hf, hfa]

/-- Non-count child with a non-aggregate source function, for the C10
witness. -/
def childC10 : Child :=
  ⟨"o", "", false, false, "friend", some "uid_in", [1], [],
   fun _ => [⟨TypeID.IntID, GoValue.intV 4⟩], fun _ => []⟩

/-- Witness for C10: a non-count, non-aggregate child returns the group
unchanged. -/
theorem claim_C10_witness :
    aggregateChild extDummy gC5 childC10 = Except.ok gC5 :=
  claim_C10 extDummy gC5 childC10 rfl
    (Or.inr ⟨"uid_in", rfl, rfl⟩)

/-- Claim C8: when the reducer's qualifying input for a group is empty,
`aggregateChild` surfaces the empty-value sentinel and appends nothing,
and the enclosing per-child loop (used by `formResult`) treats the
sentinel as non-fatal: it leaves each such group unchanged and
continues instead of aborting. -/
theorem claim_C8 (E : Ext) (child : Child) (f : String)
    (hc : child.doCount = false) (hf : child.srcFunc = some f)
    (ha : E.isAgg f = true) (groups : List groupResult)
    (hq : ∀ g ∈ groups, qualifyingVals E child g.uids = []) :
    (∀ g ∈ groups, aggregateChild E g child = Except.error gErr.emptyVal)
    ∧ aggLoopGroups E child groups = Except.ok groups := by
  have hsingle : ∀ g ∈ groups,
      aggregateChild E g child = Except.error gErr.emptyVal := by
    intro g hg
    simp [aggregateChild, hc, hf, ha, aggregateGroup, hq g hg]
  refine ⟨hsingle, ?hloop⟩
  have hloop : ∀ gs : List groupResult,
      (∀ g ∈ gs, aggregateChild E g child = Except.error gErr.emptyVal) →
      aggLoopGroups E child gs = Except.ok gs := by
    intro gs
    induction gs with
    | nil => intro _; rfl
    | cons g rest ih =>
      intro hall
      have hg := hall g (List.mem_cons_self g rest)
      have hrest := ih (fun g' hg' => hall g' (List.mem_cons_of_mem g hg'))
      simp [aggLoopGroups, hg, hrest, Except.map]
  exact hloop groups hsingle

/-- External bundle recognizing `sum` as an aggregate function, for the
C8 witness. -/
def extAgg : Ext :=
  ⟨fun _ => none, fun _ _ => (false, false), fun v => Except.ok v,
   fun v _ => some v, fun f => f == "sum", fun _ v _ => Except.ok v⟩

/-- Aggregate child whose source collection is empty (so no value ever
qualifies), for the C8 witness. -/
def childC8 : Child :=
  ⟨"", "", false, false, "age", some "sum", [], [],
   fun _ => [⟨TypeID.IntID, GoValue.intV 3⟩], fun _ => []⟩

/-- Witness for C8: a group with identifier `1` but an empty qualifying
set gets the sentinel from `aggregateChild` and passes through the loop
unchanged. -/
theorem claim_C8_witness :
    (∀ g ∈ [gC5], aggregateChild extAgg g childC8 =
        Except.error gErr.emptyVal)
    ∧ aggLoopGroups extAgg childC8 [gC5] = Except.ok [gC5] :=
  claim_C8 extAgg childC8 "sum" rfl rfl rfl [gC5]
    (by intro g hg; rw [List.mem_singleton] at hg; subst hg; rfl)

/-! ## Variable binder: the per-group binding loop -/

/-- Insert-or-overwrite into an association list (a Go map write). -/
def upsert {α : Type} : List (Nat × α) → Nat → α → List (Nat × α)
  | [], k, v => [(k, v)]
  | (k', v') :: rest, k, v =>
    if k' = k then (k, v) :: rest else (k', v') :: upsert rest k v

/-- The per-group binding loop of `fillGroupedVars`: a group with no key
is skipped (`continue`); more than one key, or a sole key whose value is
not a `uint64`, is a usage error; otherwise, when the group has any
aggregate, the key's identifier is bound to the *last* aggregate value
(`grp.aggregates[len(grp.aggregates)-1]`); `acc` is `tempMap`. -/
def bindVarLoop : List (Nat × Val) → List groupResult →
    Except String (List (Nat × Val))
  | acc, [] => Except.ok acc
  | acc, g :: gs =>
    match g.keys with
    | [] => bindVarLoop acc gs
    | _ :: _ :: _ =>
      Except.error ("Expected one UID for var in groupby but got: " ++
        toString g.keys.length)
    | [p] =>
      match p.key.value with
      | GoValue.uidV u =>
        match g.aggregates.getLast? with
        | some lastA => bindVarLoop (upsert acc u lastA.key) gs
        | none => bindVarLoop acc gs
      | _ =>
        Except.error "Vars can be assigned only when grouped by UID attribute"

/-- A group the binding loop must reject per the (amended) claim: more
than one key, or a sole key that is not an entity identifier. -/
def badGroupC2 (g : groupResult) : Bool :=
  match g.keys with
  | [] => false
  | [p] =>
    match p.key.value with
    | GoValue.uidV _ => false
    | _ => true
  | _ :: _ :: _ => true

/-- A zero-key group carrying an aggregate and an identifier: claim C2
says binding it must fail with a usage error. -/
def gNoKeyC2 : groupResult :=
  ⟨[], [⟨⟨TypeID.IntID, GoValue.intV 5⟩, "sum(x)"⟩], [7]⟩

/-- Counterexample to C2 as stated: the binding loop *silently skips* a
group with zero grouping keys — it succeeds with no binding and no usage
error, where the claim demands a failure. -/
theorem claim_C2_counterexample :
    bindVarLoop [] [gNoKeyC2] = Except.ok [] := rfl

/-- Claim C2 (amended): a produced group with zero grouping keys is
silently skipped (no binding, no error, identical to omitting the
group); a group with more than one grouping key, or with a sole grouping
key whose value is not of the entity-identifier type, makes the binding
loop fail with a usage error — and, the result being an error, no
binding map is produced for the variable. -/
theorem claim_C2 :
    (∀ (g0 : groupResult) (gs : List groupResult), g0.keys = [] →
      bindVarLoop [] (g0 :: gs) = bindVarLoop [] gs)
    ∧ (∀ groups : List groupResult,
      (∃ g ∈ groups, badGroupC2 g = true) →
      ∃ e, bindVarLoop [] groups = Except.error e) := by
  constructor
  · intro g0 gs hk
    simp [bindVarLoop, hk]
  · have main : ∀ (groups : List groupResult) (acc : List (Nat × Val)),
        (∃ g ∈ groups, badGroupC2 g = true) →
        ∃ e, bindVarLoop acc groups = Except.error e := by
      intro groups
      induction groups with
      | nil => intro acc h; simp at h
      | cons g gs ih =>
        intro acc h
        cases hGK : g.keys with
        | nil =>
          have hgs : ∃ g' ∈ gs, badGroupC2 g' = true := by
            rcases h with ⟨g', hg', hb⟩
            rcases List.mem_cons.mp hg' with rfl | hmem
            · rw [show badGroupC2 g' = false from by
                simp [badGroupC2, hGK]] at hb
              simp at hb
            · exact ⟨g', hmem, hb⟩
          obtain ⟨e, he⟩ := ih acc hgs
          exact ⟨e, by simp [bindVarLoop, hGK, he]⟩
        | cons p rest =>
          cases rest with
          | nil =>
            cases hv : p.key.value with
            | uidV u =>
              have hgs : ∃ g' ∈ gs, badGroupC2 g' = true := by
                rcases h with ⟨g', hg', hb⟩
                rcases List.mem_cons.mp hg' with rfl | hmem
                · rw [show badGroupC2 g' = false from by
                    simp [badGroupC2, hGK, hv]] at hb
                  simp at hb
                · exact ⟨g', hmem, hb⟩
              cases hl : g.aggregates.getLast? with
              | some lastA =>
                obtain ⟨e, he⟩ := ih (upsert acc u lastA.key) hgs
                exact ⟨e, by simp [bindVarLoop, hGK, hv, hl, he]⟩
              | none =>
                obtain ⟨e, he⟩ := ih acc hgs
                exact ⟨e, by simp [bindVarLoop, hGK, hv, hl, he]⟩
            | intV n =>
              exact ⟨"Vars can be assigned only when grouped by UID attribute",
                by simp [bindVarLoop, hGK, hv]⟩
            | strV s =>
              exact ⟨"Vars can be assigned only when grouped by UID attribute",
                by simp [bindVarLoop, hGK, hv]⟩
            | otherV n =>
              exact ⟨"Vars can be assigned only when grouped by UID attribute",
                by simp [bindVarLoop, hGK, hv]⟩
          | cons q rest2 =>
            refine ⟨"Expected one UID for var in groupby but got: " ++
              toString g.keys.length, ?he⟩
            simp [bindVarLoop, hGK]
    exact fun groups h => main groups [] h

/-- A two-key group, for the C2 witness. -/
def gTwoKeysC2 : groupResult :=
  ⟨[⟨⟨TypeID.UidID, GoValue.uidV 1⟩, "a"⟩,
    ⟨⟨TypeID.UidID, GoValue.uidV 2⟩, "b"⟩], [], [1]⟩

/-- Witness for C2 (amended): the zero-key group is skipped exactly like
an absent group, and a two-key group makes the loop fail. -/
theorem claim_C2_witness :
    (bindVarLoop [] [gNoKeyC2] = bindVarLoop [] []) ∧
    (∃ e, bindVarLoop [] [gTwoKeysC2] = Except.error e) :=
  ⟨claim_C2.1 gNoKeyC2 [] rfl,
   claim_C2.2 [gTwoKeysC2] ⟨gTwoKeysC2, by simp, rfl⟩⟩

/-- The single entity-identifier grouping key of a group, when it has
exactly one key holding a `uint64`. -/
def soleUid (g : groupResult) : Option Nat :=
  match g.keys with
  | [p] =>
    match p.key.value with
    | GoValue.uidV u => some u
    | _ => none
  | _ => none

/-- The binding a group contributes: its sole identifier mapped to its
last aggregate value, or nothing when it has no aggregate. -/
def bindPair (g : groupResult) : Option (Nat × Val) :=
  match soleUid g, g.aggregates.getLast? with
  | some u, some lastA => some (u, lastA.key)
  | _, _ => none

theorem upsert_fresh {α : Type} (acc : List (Nat × α)) (u : Nat) (v : α)
    (h : u ∉ acc.map Prod.fst) : upsert acc u v = acc ++ [(u, v)] := by
  induction acc with
  | nil => rfl
  | cons kv rest ih =>
    obtain ⟨k', v'⟩ := kv
    simp only [List.map_cons, List.mem_cons] at h
    push_neg at h
    simp [upsert, Ne.symm h.1, ih h.2]

/-- Claim C7: when every produced group has exactly one entity-identifier
grouping key (with pairwise distinct identifiers, as the dedup index
guarantees), the binding loop succeeds and maps each group's identifier
to the *last* element of that group's aggregate list, omitting (rather
than erroring on) every group whose aggregate list is empty. -/
theorem claim_C7 (groups : List groupResult)
    (h1 : ∀ g ∈ groups, (soleUid g).isSome)
    (h2 : (groups.filterMap soleUid).Nodup) :
    bindVarLoop [] groups = Except.ok (groups.filterMap bindPair) := by
  have main : ∀ (groups : List groupResult) (acc : List (Nat × Val)),
      (∀ g ∈ groups, (soleUid g).isSome) →
      (groups.filterMap soleUid).Nodup →
      (∀ u ∈ groups.filterMap soleUid, u ∉ acc.map Prod.fst) →
      bindVarLoop acc groups =
        Except.ok (acc ++ groups.filterMap bindPair) := by
    intro groups
    induction groups with
    | nil => intro acc _ _ _; simp [bindVarLoop]
    | cons g gs ih =>
      intro acc ha hn hfresh
      have hg := ha g (List.mem_cons_self g gs)
      obtain ⟨p, hGK, u, hv⟩ : ∃ p, g.keys = [p] ∧
          ∃ u, p.key.value = GoValue.uidV u := by
        cases hGK : g.keys with
        | nil => simp [soleUid, hGK] at hg
        | cons p rest =>
          cases rest with
          | nil =>
            cases hv : p.key.value with
            | uidV u => exact ⟨p, rfl, u, hv⟩
            | intV n => simp [soleUid, hGK, hv] at hg
            | strV s => simp [soleUid, hGK, hv] at hg
            | otherV n => simp [soleUid, hGK, hv] at hg
          | cons q rest2 => simp [soleUid, hGK] at hg
      have hsole : soleUid g = some u := by
        simp [soleUid, hGK, hv]
      have hfm : (g :: gs).filterMap soleUid = u :: gs.filterMap soleUid := by
        simp [hsole]
      rw [hfm] at hn hfresh
      have hn2 := (List.nodup_cons.mp hn).2
      have hu_not : u ∉ gs.filterMap soleUid := (List.nodup_cons.mp hn).1
      have ha2 : ∀ g' ∈ gs, (soleUid g').isSome :=
        fun g' hg' => ha g' (List.mem_cons_of_mem g hg')
      cases hl : g.aggregates.getLast? with
      | some lastA =>
        have hfr_u : u ∉ acc.map Prod.fst :=
          hfresh u (List.mem_cons_self u _)
        have hup : upsert acc u lastA.key = acc ++ [(u, lastA.key)] :=
          upsert_fresh acc u lastA.key hfr_u
        have hfresh2 : ∀ u' ∈ gs.filterMap soleUid,
            u' ∉ (acc ++ [(u, lastA.key)]).map Prod.fst := by
          intro u' hu'
          simp only [List.map_append, List.mem_append, List.map_cons,
            List.map_nil, List.mem_singleton]
          push_neg
          refine ⟨hfresh u' (List.mem_cons_of_mem u hu'), ?hne⟩
          intro hcon
          exact hu_not (hcon ▸ hu')
        have hrec := ih (acc ++ [(u, lastA.key)]) ha2 hn2 hfresh2
        have hbp : bindPair g = some (u, lastA.key) := by
          simp [bindPair, hsole, hl]
        calc bindVarLoop acc (g :: gs)
            = bindVarLoop (upsert acc u lastA.key) gs := by
              simp [bindVarLoop, hGK, hv, hl]
          _ = Except.ok ((acc ++ [(u, lastA.key)]) ++
              gs.filterMap bindPair) := by rw [hup, hrec]
          _ = Except.ok (acc ++ (g :: gs).filterMap bindPair) := by
              simp [hbp]
      | none =>
        have hfresh2 : ∀ u' ∈ gs.filterMap soleUid,
            u' ∉ acc.map Prod.fst :=
          fun u' hu' => hfresh u' (List.mem_cons_of_mem u hu')
        have hrec := ih acc ha2 hn2 hfresh2
        have hbp : bindPair g = none := by
          simp [bindPair, hsole, hl]
        calc bindVarLoop acc (g :: gs)
            = bindVarLoop acc gs := by simp [bindVarLoop, hGK, hv, hl]
          _ = Except.ok (acc ++ gs.filterMap bindPair) := hrec
          _ = Except.ok (acc ++ (g :: gs).filterMap bindPair) := by
              simp [hbp]
  have := main groups [] h1 h2 (by simp)
  simpa using this

/-- Group keyed by uid 1 with two aggregates (`3` then `9`), for the C7
witness: the variable receives the *last* one, `9`. -/
def g1C7 : groupResult :=
  ⟨[⟨⟨TypeID.UidID, GoValue.uidV 1⟩, "author"⟩],
   [⟨⟨TypeID.IntID, GoValue.intV 3⟩, "sum(x)"⟩,
    ⟨⟨TypeID.IntID, GoValue.intV 9⟩, "max(x)"⟩], [1]⟩

/-- Group keyed by uid 2 with no aggregates, for the C7 witness: it is
omitted from the binding, not an error. -/
def g2C7 : groupResult :=
  ⟨[⟨⟨TypeID.UidID, GoValue.uidV 2⟩, "author"⟩], [], [2]⟩

/-- Witness for C7: the binding maps uid 1 to the last aggregate value 9
and omits the aggregate-less group of uid 2. -/
theorem claim_C7_witness :
    (∀ g ∈ [g1C7, g2C7], (soleUid g).isSome) ∧
    ([g1C7, g2C7].filterMap soleUid).Nodup ∧
    bindVarLoop [] [g1C7, g2C7] =
      Except.ok [(1, ⟨TypeID.IntID, GoValue.intV 9⟩)] :=
  ⟨by decide, by decide,
   (claim_C7 [g1C7, g2C7] (by decide) (by decide)).trans rfl⟩

/-! ## Deduplication-index characterization -/

/-- The bucket `getGroup(attr)` finds (last-to-first search), as a
value. -/
def findBucket (gs : List uniq) (a : String) : Option uniq :=
  match getGroupIdx gs a with
  | none => none
  | some i => gs[i]?

/-- The identifier list a dedup index records under attribute `attr` and
canonical key `k` (empty when either is absent). -/
def entitiesOf (d : dedup) (attr k : String) : List Nat :=
  match findBucket d.groups attr with
  | none => []
  | some b =>
    match lookupA b.elements k with
    | none => []
    | some ge => ge.entities

theorem getGroupIdx_append (gs : List uniq) (b : uniq) (a : String) :
    getGroupIdx (gs ++ [b]) a =
      if b.attr = a then some gs.length else getGroupIdx gs a := by
  induction gs with
  | nil => by_cases h : b.attr = a <;> simp [getGroupIdx, h]
  | cons g rest ih =>
    by_cases h : b.attr = a
    · rw [if_pos h] at ih ⊢
      simp [getGroupIdx, ih]
    · rw [if_neg h] at ih ⊢
      rw [List.cons_append, getGroupIdx, ih, getGroupIdx]

theorem getGroupIdx_some_spec (gs : List uniq) (a : String) (i : Nat)
    (h : getGroupIdx gs a = some i) :
    i < gs.length ∧ ∃ g, gs[i]? = some g ∧ g.attr = a := by
  induction gs generalizing i with
  | nil => simp [getGroupIdx] at h
  | cons g rest ih =>
    rw [getGroupIdx] at h
    cases h2 : getGroupIdx rest a with
    | some j =>
      rw [h2] at h
      simp only [Option.some.injEq] at h
      obtain ⟨hj, g', hg', ha⟩ := ih j h2
      subst h
      exact ⟨by simpa using Nat.succ_lt_succ hj, g', by simpa using hg', ha⟩
    | none =>
      rw [h2] at h
      by_cases hg : g.attr = a
      · rw [if_pos hg] at h
        simp only [Option.some.injEq] at h
        subst h
        exact ⟨by simp, g, by simp, hg⟩
      · rw [if_neg hg] at h
        simp at h

theorem getGroupIdx_updateAt (gs : List uniq) (i : Nat) (f : uniq → uniq)
    (hf : ∀ g, (f g).attr = g.attr) (a : String) :
    getGroupIdx (updateAt gs i f) a = getGroupIdx gs a := by
  induction gs generalizing i with
  | nil => simp [updateAt]
  | cons g rest ih =>
    cases i with
    | zero => simp [updateAt, getGroupIdx, hf]
    | succ i => simp [updateAt, getGroupIdx, ih]

theorem updateAt_getElem {α : Type} (gs : List α) (i j : Nat) (f : α → α) :
    (updateAt gs i f)[j]? = if i = j then Option.map f gs[j]? else gs[j]? := by
  induction gs generalizing i j with
  | nil => simp [updateAt]
  | cons x xs ih =>
    cases i with
    | zero =>
      cases j with
      | zero => simp [updateAt]
      | succ j => simp [updateAt]
    | succ i =>
      cases j with
      | zero => simp [updateAt]
      | succ j => simpa [updateAt] using ih i j

theorem updateAt_append_len {α : Type} (xs : List α) (x : α) (f : α → α) :
    updateAt (xs ++ [x]) xs.length f = xs ++ [f x] := by
  induction xs with
  | nil => rfl
  | cons y ys ih => simp [updateAt, ih]

theorem lookupA_addUidToKey (els : List (String × groupElements))
    (k k' : String) (v : Val) (uid : Nat) :
    lookupA (addUidToKey els k v uid) k' =
      if k' = k then
        (match lookupA els k with
          | some ge => some ⟨ge.key, ge.entities ++ [uid]⟩
          | none => some ⟨v, [uid]⟩)
      else lookupA els k' := by
  induction els with
  | nil =>
    by_cases h : k' = k
    · simp [addUidToKey, lookupA, h]
    · simp [addUidToKey, lookupA, h, Ne.symm h]
  | cons kv rest ih =>
    obtain ⟨k0, e⟩ := kv
    by_cases h0 : k0 = k
    · subst h0
      by_cases h' : k' = k0
      · subst h'
        simp [addUidToKey, lookupA]
      · simp [addUidToKey, lookupA, h', Ne.symm h']
    · by_cases h1 : k0 = k'
      · subst h1
        simp [addUidToKey, lookupA, h0, Ne.symm h0]
      · simp [addUidToKey, lookupA, h0, h1, ih]

/-- The attribute-preserving bucket update of `addValue` leaves the
bucket search untouched. -/
theorem getGroupIdx_updateAt_add (gs : List uniq) (i : Nat) (k0 : String)
    (v : Val) (uid : Nat) (a : String) :
    getGroupIdx (updateAt gs i
      (fun g => ⟨addUidToKey g.elements k0 v uid, g.attr⟩)) a =
      getGroupIdx gs a :=
  getGroupIdx_updateAt gs i
    (fun g => ⟨addUidToKey g.elements k0 v uid, g.attr⟩) (fun _ => rfl) a


/-- One `addValue` step, characterized on memberships: `u` is recorded
under `(a, k)` afterwards iff it was before, or this very call put it
there (`a` is the call's attribute, the call's value has canonical key
`k`, and `u` is the call's identifier). -/
theorem mem_entitiesOf_addValue (E : Ext) (d : dedup) (attr : String)
    (v : Val) (uid : Nat) (a k : String) (u : Nat) :
    u ∈ entitiesOf (addValue E d attr v uid) a k ↔
      (u ∈ entitiesOf d a k ∨
        (a = attr ∧ strKeyOf E v = some k ∧ u = uid)) := by
  cases hsk : strKeyOf E v with
  | none =>
    cases hgi : getGroupIdx d.groups attr with
    | some i =>
      have hd : addValue E d attr v uid = d := by
        simp [addValue, hsk, hgi]
      rw [hd]
      simp [hsk]
    | none =>
      have hd : addValue E d attr v uid = ⟨d.groups ++ [⟨[], attr⟩]⟩ := by
        simp [addValue, hsk, hgi]
      rw [hd]
      by_cases ha : attr = a
      · subst ha
        simp [entitiesOf, findBucket, getGroupIdx_append, hgi, hsk,
          List.getElem?_append, lookupA]
      · cases hgj : getGroupIdx d.groups a with
        | none =>
          simp [entitiesOf, findBucket, getGroupIdx_append, ha, hgj, hsk]
        | some j =>
          obtain ⟨hj, g', hg', _⟩ := getGroupIdx_some_spec _ _ _ hgj
          simp [entitiesOf, findBucket, getGroupIdx_append, ha, hgj, hsk,
            List.getElem?_append, hj]
  | some k0 =>
    cases hgi : getGroupIdx d.groups attr with
    | some i =>
      obtain ⟨hi, bi, hbi, hbia⟩ := getGroupIdx_some_spec _ _ _ hgi
      have hd : addValue E d attr v uid =
          ⟨updateAt d.groups i
            (fun g => ⟨addUidToKey g.elements k0 v uid, g.attr⟩)⟩ := by
        simp [addValue, hsk, hgi]
      rw [hd]
      by_cases ha : a = attr
      · subst ha
        by_cases hk : k = k0
        · subst hk
          cases hl : lookupA bi.elements k with
          | some ge =>
            simp [entitiesOf, findBucket, getGroupIdx_updateAt_add, hgi,
              updateAt_getElem, hbi, lookupA_addUidToKey, hl, hsk]
          | none =>
            simp [entitiesOf, findBucket, getGroupIdx_updateAt_add, hgi,
              updateAt_getElem, hbi, lookupA_addUidToKey, hl, hsk]
        · simp [entitiesOf, findBucket, getGroupIdx_updateAt_add, hgi,
            updateAt_getElem, hbi, lookupA_addUidToKey, hk, Ne.symm hk, hsk]
      · cases hgj : getGroupIdx d.groups a with
        | none =>
          simp [entitiesOf, findBucket, getGroupIdx_updateAt_add, hgj, ha]
        | some j =>
          obtain ⟨hj, gj, hgj2, hgja⟩ := getGroupIdx_some_spec _ _ _ hgj
          have hij : i ≠ j := by
            intro hcon
            subst hcon
            rw [hbi] at hgj2
            injection hgj2 with hbg
            exact ha (by rw [← hgja, ← hbg, hbia])
          simp [entitiesOf, findBucket, getGroupIdx_updateAt_add, hgj, ha,
            updateAt_getElem, hij]
    | none =>
      have hd : addValue E d attr v uid =
          ⟨d.groups ++ [⟨[(k0, ⟨v, [uid]⟩)], attr⟩]⟩ := by
        simp only [addValue, hsk, hgi]
        rw [updateAt_append_len]
        rfl
      rw [hd]
      by_cases ha : attr = a
      · subst ha
        by_cases hk : k0 = k
        · subst hk
          simp [entitiesOf, findBucket, getGroupIdx_append, hgi, hsk,
            List.getElem?_append, lookupA]
        · simp [entitiesOf, findBucket, getGroupIdx_append, hgi, hsk,
            List.getElem?_append, lookupA, hk, Ne.symm hk]
      · cases hgj : getGroupIdx d.groups a with
        | none =>
          simp [entitiesOf, findBucket, getGroupIdx_append, ha, hgj, hsk]
          intro hc
          exact absurd hc.symm ha
        | some j =>
          obtain ⟨hj, g', hg', _⟩ := getGroupIdx_some_spec _ _ _ hgj
          simp [entitiesOf, findBucket, getGroupIdx_append, ha, hgj, hsk,
            List.getElem?_append, hj]
          intro hc
          exact absurd hc.symm ha

/-- Replay a sequence of `(attribute, value, identifier)` calls against a
fresh dedup index. -/
def runCalls (E : Ext) (calls : List (String × Val × Nat)) : dedup :=
  calls.foldl (fun d c => addValue E d c.1 c.2.1 c.2.2) ⟨[]⟩

theorem mem_entitiesOf_foldl (E : Ext) :
    ∀ (calls : List (String × Val × Nat)) (d : dedup) (a k : String)
      (u : Nat),
      u ∈ entitiesOf
          (calls.foldl (fun d c => addValue E d c.1 c.2.1 c.2.2) d) a k ↔
        u ∈ entitiesOf d a k ∨
          ∃ v, (a, v, u) ∈ calls ∧ strKeyOf E v = some k := by
  intro calls
  induction calls with
  | nil => intro d a k u; simp
  | cons c rest ih =>
    intro d a k u
    obtain ⟨c1, c2, c3⟩ := c
    rw [List.foldl_cons, ih, mem_entitiesOf_addValue]
    constructor
    · rintro ((h | ⟨rfl, hsk, rfl⟩) | ⟨v, hv, hvk⟩)
      · exact Or.inl h
      · exact Or.inr ⟨c2, by simp, hsk⟩
      · exact Or.inr ⟨v, List.mem_cons_of_mem _ hv, hvk⟩
    · rintro (h | ⟨v, hv, hvk⟩)
      · exact Or.inl (Or.inl h)
      · rcases List.mem_cons.mp hv with heq | hmem
        · obtain ⟨rfl, rfl, rfl⟩ := Prod.mk.injEq .. ▸ heq
          exact Or.inl (Or.inr ⟨rfl, hvk, rfl⟩)
        · exact Or.inr ⟨v, hmem, hvk⟩

/-- Claim C3 (amended): after any sequence of `addValue` calls, an
identifier is recorded under attribute `a` and canonical key `k` iff one
of its calls carried attribute `a` and a value of canonical key `k` — so
two identifiers land in the same bucket entry iff their values produce
the same canonical key under the same attribute, and the union of a
bucket's entry lists is exactly the identifiers added under that
attribute minus the marshal-dropped ones.  Identifier lists under
different keys of one bucket are pairwise disjoint *provided* no single
identifier is added under one attribute with two values of different
canonical keys (the claim's unconditional disjointness fails, see the
counterexample). -/
theorem claim_C3 (E : Ext) (calls : List (String × Val × Nat))
    (hcons : ∀ p1 ∈ calls, ∀ p2 ∈ calls,
      p1.1 = p2.1 → p1.2.2 = p2.2.2 →
      strKeyOf E p1.2.1 = strKeyOf E p2.2.1) :
    (∀ (a k : String) (u : Nat),
      u ∈ entitiesOf (runCalls E calls) a k ↔
        ∃ v, (a, v, u) ∈ calls ∧ strKeyOf E v = some k)
    ∧ (∀ (a k1 k2 : String), k1 ≠ k2 →
      (entitiesOf (runCalls E calls) a k1).Disjoint
        (entitiesOf (runCalls E calls) a k2)) := by
  have hmem : ∀ (a k : String) (u : Nat),
      u ∈ entitiesOf (runCalls E calls) a k ↔
        ∃ v, (a, v, u) ∈ calls ∧ strKeyOf E v = some k := by
    intro a k u
    have := mem_entitiesOf_foldl E calls ⟨[]⟩ a k u
    simpa [entitiesOf, findBucket, getGroupIdx, runCalls] using this
  refine ⟨hmem, ?hdisj⟩
  intro a k1 k2 hne u h1 h2
  obtain ⟨v1, hv1, hk1⟩ := (hmem a k1 u).mp h1
  obtain ⟨v2, hv2, hk2⟩ := (hmem a k2 u).mp h2
  have heq := hcons (a, v1, u) hv1 (a, v2, u) hv2 rfl rfl
  rw [hk1, hk2] at heq
  injection heq with heq2
  exact hne heq2

/-- The dedup index after adding the *same* identifier 1 under attribute
`a` with two different entity references (canonical keys "5" and "6"). -/
def dC3 : dedup :=
  runCalls extDummy
    [("a", ⟨TypeID.UidID, GoValue.uidV 5⟩, 1),
     ("a", ⟨TypeID.UidID, GoValue.uidV 6⟩, 1)]

/-- Counterexample to C3 as stated: the identifier lists under the two
different canonical keys "5" and "6" of bucket `a` both contain
identifier 1 — they are not pairwise disjoint, because a single
identifier added twice under one attribute with values of different
canonical keys lands in both entries (exactly what the UID-node path of
`formResult` does for an entity with two adjacent entities). -/
theorem claim_C3_counterexample :
    ("5" : String) ≠ "6" ∧
    (1 ∈ entitiesOf dC3 "a" "5") ∧ (1 ∈ entitiesOf dC3 "a" "6") ∧
    ¬ (entitiesOf dC3 "a" "5").Disjoint (entitiesOf dC3 "a" "6") := by
  refine ⟨by decide, by decide, by decide, ?hd⟩
  intro h
  exact h (by decide : (1 : Nat) ∈ entitiesOf dC3 "a" "5")
    (by decide : (1 : Nat) ∈ entitiesOf dC3 "a" "6")

/-- External bundle whose marshal serializes strings (and fails on
everything else non-uid), for the C3 witness. -/
def extStr : Ext :=
  ⟨fun v => match v.value with
    | GoValue.strV s => some s
    | _ => none,
   fun _ _ => (false, false), fun v => Except.ok v, fun v _ => some v,
   fun _ => false, fun _ v _ => Except.ok v⟩

/-- Calls for the C3 witness: identifiers 1 and 2 share canonical key
"x"; identifier 3 has key "y". -/
def callsC3 : List (String × Val × Nat) :=
  [("a", ⟨TypeID.StringID, GoValue.strV "x"⟩, 1),
   ("a", ⟨TypeID.StringID, GoValue.strV "x"⟩, 2),
   ("a", ⟨TypeID.StringID, GoValue.strV "y"⟩, 3)]

/-- Witness for C3 (amended): on key-consistent calls the membership
characterization and the disjointness hold; concretely the bucket maps
"x" to `[1, 2]` and "y" to `[3]`. -/
theorem claim_C3_witness :
    (∀ p1 ∈ callsC3, ∀ p2 ∈ callsC3,
      p1.1 = p2.1 → p1.2.2 = p2.2.2 →
      strKeyOf extStr p1.2.1 = strKeyOf extStr p2.2.1) ∧
    ((∀ (a k : String) (u : Nat),
      u ∈ entitiesOf (runCalls extStr callsC3) a k ↔
        ∃ v, (a, v, u) ∈ callsC3 ∧ strKeyOf extStr v = some k)
    ∧ (∀ (a k1 k2 : String), k1 ≠ k2 →
      (entitiesOf (runCalls extStr callsC3) a k1).Disjoint
        (entitiesOf (runCalls extStr callsC3) a k2))) ∧
    entitiesOf (runCalls extStr callsC3) "a" "x" = [1, 2] ∧
    entitiesOf (runCalls extStr callsC3) "a" "y" = [3] :=
  ⟨by decide, claim_C3 extStr callsC3 (by decide), by decide, by decide⟩

/-- Claim C6 (amended): an `addValue` call whose non-entity-reference
value fails to marshal records nothing and reports nothing — no bucket's
element map is touched and no identifier is stored — but it is not a
complete no-op: the `getGroup` lookup that precedes the marshal appends a
fresh *empty* bucket when the attribute had none. -/
theorem claim_C6 (E : Ext) (d : dedup) (attr : String) (v : Val) (uid : Nat)
    (h1 : v.tid ≠ TypeID.UidID) (h2 : E.marshal v = none) :
    addValue E d attr v uid =
      (if (getGroupIdx d.groups attr).isSome then d
       else ⟨d.groups ++ [⟨[], attr⟩]⟩) := by
  have hsk : strKeyOf E v = none := by simp [strKeyOf, h1, h2]
  cases hgi : getGroupIdx d.groups attr with
  | some i => simp [addValue, hsk, hgi]
  | none => simp [addValue, hsk, hgi]

/-- A string value that `extDummy.marshal` fails on. -/
def vC6 : Val := ⟨TypeID.StringID, GoValue.strV "x"⟩

/-- Counterexample to C6 as stated: adding a marshal-failing value under
a fresh attribute does *not* leave the dedup index completely unchanged —
`getGroup` has already appended a new (empty) bucket for the attribute
before the marshal is attempted. -/
theorem claim_C6_counterexample :
    vC6.tid ≠ TypeID.UidID ∧
    extDummy.marshal vC6 = none ∧
    addValue extDummy ⟨[]⟩ "name" vC6 1 ≠ (⟨[]⟩ : dedup) ∧
    addValue extDummy ⟨[]⟩ "name" vC6 1 = ⟨[⟨[], "name"⟩]⟩ :=
  ⟨by decide, rfl, by decide, by decide⟩

/-- A dedup index that already has a (non-empty) bucket for `name`, for
the C6 witness. -/
def dC6 : dedup :=
  ⟨[⟨[("k", ⟨⟨TypeID.StringID, GoValue.strV "k"⟩, [2]⟩)], "name"⟩]⟩

/-- Witness for C6 (amended): on an index that already has the bucket,
the marshal-failing call leaves the index completely unchanged. -/
theorem claim_C6_witness :
    vC6.tid ≠ TypeID.UidID ∧
    extDummy.marshal vC6 = none ∧
    addValue extDummy dC6 "name" vC6 1 =
      (if (getGroupIdx dC6.groups "name").isSome then dC6
       else ⟨dC6.groups ++ [⟨[], "name"⟩]⟩) ∧
    addValue extDummy dC6 "name" vC6 1 = dC6 :=
  ⟨by decide, rfl, claim_C6 extDummy dC6 "name" vC6 1 (by decide) rfl,
   by decide⟩

/-! ## Per-row evaluation (`formResult`), variable pass, and the driver -/

/-- The effective grouping attribute of a child: its alias, or its
attribute name when no alias is given. -/
def childAttr (c : Child) : String :=
  if c.aliasName = "" then c.attr else c.aliasName

/-- The value-node deposit loop of `formResult`: for each source
identifier with at least one stored value, convert the first value
(`convertTo`) and record it.  A conversion error aborts the iteration
and, wrapped in `x.Check`, kills the process — modelled as an error
result. -/
def depositValsCheck (E : Ext) (vm : Nat → List Val) (attr : String) :
    List Nat → dedup → Except gErr dedup
  | [], d => Except.ok d
  | su :: rest, d =>
    match vm su with
    | [] => depositValsCheck E vm attr rest d
    | v :: _ =>
      match E.convertTo v with
      | Except.error e => Except.error (gErr.msg e)
      | Except.ok val =>
        depositValsCheck E vm attr rest (addValue E d attr val su)

/-- The value-node deposit loop of `fillGroupedVars`: same walk, but the
iteration's error is *discarded* (the Go call drops `Iterate`'s return
value), so a conversion failure merely stops the walk early, keeping the
partial index. -/
def depositValsStop (E : Ext) (vm : Nat → List Val) (attr : String) :
    List Nat → dedup → dedup
  | [], d => d
  | su :: rest, d =>
    match vm su with
    | [] => depositValsStop E vm attr rest d
    | v :: _ =>
      match E.convertTo v with
      | Except.error _ => d
      | Except.ok val =>
        depositValsStop E vm attr rest (addValue E d attr val su)

/-- The UID-node deposit loop: record every adjacent identifier (as a
`UidID` value) under the source identifier. -/
def depositUids (E : Ext) (um : Nat → List Nat) (attr : String)
    (srcs : List Nat) (d : dedup) : dedup :=
  srcs.foldl (fun d su =>
    (um su).foldl (fun d adj =>
      addValue E d attr ⟨TypeID.UidID, GoValue.uidV adj⟩ su) d) d

/-- The dedup-building pass of `formResult` over the children (value
nodes intersected with the row's uid set). -/
def buildRowDedup (E : Ext) (uidSet : List Nat) :
    List Child → dedup → Except gErr dedup
  | [], d => Except.ok d
  | c :: cs, d =>
    if c.ignoreResult then
      if c.destUIDs.isEmpty then
        match depositValsCheck E c.valueMatrix (childAttr c)
            (intersectWith c.srcUIDs uidSet) d with
        | Except.error e => Except.error e
        | Except.ok d2 => buildRowDedup E uidSet cs d2
      else
        buildRowDedup E uidSet cs
          (depositUids E c.uidMatrix (childAttr c)
            (intersectWith c.srcUIDs uidSet) d)
    else buildRowDedup E uidSet cs d

/-- The aggregation pass of `formResult` over the children (children that
fed the dedup are skipped). -/
def aggAllChildren (E : Ext) :
    List Child → List groupResult → Except gErr (List groupResult)
  | [], groups => Except.ok groups
  | c :: cs, groups =>
    if c.ignoreResult then aggAllChildren E cs groups
    else
      match aggLoopGroups E c groups with
      | Except.error e => Except.error e
      | Except.ok groups2 => aggAllChildren E cs groups2

/-- Insert into a sorted-by-`lt` list. -/
def insertSorted (lt : groupResult → groupResult → Bool)
    (x : groupResult) : List groupResult → List groupResult
  | [] => [x]
  | y :: ys => if lt x y then x :: y :: ys else y :: insertSorted lt x ys

/-- `sort.Slice(res.group, groupLess)`: Go's unstable comparator sort,
modelled as insertion sort by the same comparator (any
comparator-consistent reordering is a faithful model of an unstable
sort). -/
def sortGroups (lt : groupResult → groupResult → Bool)
    (l : List groupResult) : List groupResult :=
  l.foldr (insertSorted lt) []

/-- `SubGraph.formResult(uidSet)`: build the dedup index from the
grouping children, form the groups, aggregate every non-grouping child,
and sort deterministically. -/
def formResult (E : Ext) (children : List Child) (uidSet : List Nat) :
    Except gErr groupResults :=
  match buildRowDedup E uidSet children ⟨[]⟩ with
  | Except.error e => Except.error e
  | Except.ok dm =>
    match aggAllChildren E children (formGroups dm.groups [] []) with
    | Except.error e => Except.error e
    | Except.ok res2 =>
      Except.ok ⟨sortGroups (fun a b => groupLess E a b) res2⟩

/-- The node whose group-by is evaluated: its children, its uid matrix
(one row per path through the ancestor tree), and its accumulated
group-by output. -/
structure SubGraph where
  children : List Child
  uidMatrix : List (List Nat)
  groupbyRes : List groupResults

/-- `varValue`: the per-identifier bindings published for a variable,
with the traversal path (`append(path, pathNode)`). -/
structure varValue where
  vals : List (Nat × Val)
  path : List (Option Child)

/-- Insert-or-overwrite into `doneVars` (a Go map write). -/
def upsertVar : List (String × varValue) → String → varValue →
    List (String × varValue)
  | [], k, v => [(k, v)]
  | (k', v') :: rest, k, v =>
    if k' = k then (k, v) :: rest else (k', v') :: upsertVar rest k v

/-- The dedup-building pass of `fillGroupedVars`: whole source
collections (not row-intersected); the last UID-node child becomes
`pathNode`. -/
def buildVarsDedup (E : Ext) :
    List Child → dedup → Option Child → dedup × Option Child
  | [], d, pn => (d, pn)
  | c :: cs, d, pn =>
    if c.ignoreResult then
      if c.destUIDs.isEmpty then
        buildVarsDedup E cs
          (depositValsStop E c.valueMatrix (childAttr c) c.srcUIDs d) pn
      else
        buildVarsDedup E cs
          (depositUids E c.uidMatrix (childAttr c) c.srcUIDs d) (some c)
    else buildVarsDedup E cs d pn

/-- The aggregate-then-bind pass of `fillGroupedVars` over the children:
the groups accumulate aggregates across children (Go mutates them in
place), and each variable-declaring child publishes its binding into
`doneVars`; an error keeps the bindings published so far (the Go map was
already mutated). -/
def aggBindLoop (E : Ext) (pth : List (Option Child)) :
    List Child → List groupResult → List (String × varValue) →
    List (String × varValue) × Option gErr
  | [], _, dv => (dv, none)
  | c :: cs, groups, dv =>
    if c.ignoreResult then aggBindLoop E pth cs groups dv
    else
      match aggLoopGroups E c groups with
      | Except.error e => (dv, some e)
      | Except.ok groups2 =>
        if c.var = "" then aggBindLoop E pth cs groups2 dv
        else
          match bindVarLoop [] groups2 with
          | Except.error e => (dv, some (gErr.msg e))
          | Except.ok m =>
            aggBindLoop E pth cs groups2 (upsertVar dv c.var ⟨m, pth⟩)

/-- `SubGraph.fillGroupedVars(doneVars, path)`: runs only when some child
declares a variable; regroups over the whole unfiltered matrix and
publishes per-variable bindings.  Returns the updated `doneVars` and the
error, mirroring Go's in-place map mutation plus error return. -/
def fillGroupedVars (E : Ext) (sg : SubGraph)
    (dv : List (String × varValue)) (path : List (Option Child)) :
    List (String × varValue) × Option gErr :=
  if sg.children.all (fun c => c.var = "") then (dv, none)
  else
    aggBindLoop E
      (path ++ [(buildVarsDedup E sg.children ⟨[]⟩ none).2])
      sg.children
      (formGroups (buildVarsDedup E sg.children ⟨[]⟩ none).1.groups [] [])
      dv

/-- The per-row loop of `processGroupBy`: append one `groupResults` per
row; stop at the first failing row. -/
def rowLoop (E : Ext) (children : List Child) :
    List (List Nat) → List groupResults → List groupResults × Option gErr
  | [], acc => (acc, none)
  | r :: rest, acc =>
    match formResult E children r with
    | Except.error e => (acc, some e)
    | Except.ok g => rowLoop E children rest (acc ++ [g])

/-- `SubGraph.processGroupBy(doneVars, path)`: one `groupResults` per
matrix row, then the variable pass, then clear the children; returns the
node state, the variable table and the error (Go mutates the node and
returns the error). -/
def processGroupBy (E : Ext) (sg : SubGraph)
    (dv : List (String × varValue)) (path : List (Option Child)) :
    SubGraph × List (String × varValue) × Option gErr :=
  match rowLoop E sg.children sg.uidMatrix sg.groupbyRes with
  | (gbr, some e) => ({ sg with groupbyRes := gbr }, dv, some e)
  | (gbr, none) =>
    match fillGroupedVars E { sg with groupbyRes := gbr } dv path with
    | (dv2, some e) => ({ sg with groupbyRes := gbr }, dv2, some e)
    | (dv2, none) =>
      ({ sg with groupbyRes := gbr, children := [] }, dv2, none)

/-- The payload of a successful `formResult` (empty on error; only used
under a success hypothesis). -/
def okOr (x : Except gErr groupResults) : groupResults :=
  match x with
  | Except.ok g => g
  | Except.error _ => ⟨[]⟩

/-- Whether an evaluation succeeded. -/
def isOkE (x : Except gErr groupResults) : Bool :=
  match x with
  | Except.ok _ => true
  | Except.error _ => false

theorem rowLoop_ok (E : Ext) (children : List Child) :
    ∀ (rows : List (List Nat)) (acc res : List groupResults),
      rowLoop E children rows acc = (res, none) →
      res = acc ++ rows.map (fun r => okOr (formResult E children r)) ∧
      ∀ r ∈ rows, isOkE (formResult E children r) = true := by
  intro rows
  induction rows with
  | nil =>
    intro acc res h
    rw [rowLoop] at h
    injection h with h1 _
    subst h1
    simp
  | cons r rest ih =>
    intro acc res h
    rw [rowLoop] at h
    cases hf : formResult E children r with
    | error e => rw [hf] at h; simp at h
    | ok g =>
      rw [hf] at h
      obtain ⟨h1, h2⟩ := ih (acc ++ [g]) res h
      constructor
      · rw [h1]
        simp [hf, okOr]
      · intro r2 hr2
        rcases List.mem_cons.mp hr2 with rfl | hmem
        · simp [hf, isOkE]
        · exact h2 r2 hmem

/-- Claim C9: a successful `processGroupBy` call appends exactly one
`groupResults` per row of the node's uid matrix, in row order, to the
node's group-by output, and clears the node's child list; on any error
the children are left untouched. -/
theorem claim_C9 (E : Ext) (sg : SubGraph)
    (dv : List (String × varValue)) (path : List (Option Child)) :
    (∀ sg2 dv2, processGroupBy E sg dv path = (sg2, dv2, none) →
      sg2.children = [] ∧
      sg2.groupbyRes = sg.groupbyRes ++
        sg.uidMatrix.map (fun r => okOr (formResult E sg.children r)) ∧
      ∀ r ∈ sg.uidMatrix, isOkE (formResult E sg.children r) = true)
    ∧ (∀ sg2 dv2 e, processGroupBy E sg dv path = (sg2, dv2, some e) →
      sg2.children = sg.children) := by
  constructor
  · intro sg2 dv2 h
    cases hrl : rowLoop E sg.children sg.uidMatrix sg.groupbyRes with
    | mk gbr err =>
      cases err with
      | some e => simp [processGroupBy, hrl] at h
      | none =>
        cases hfv : fillGroupedVars E { sg with groupbyRes := gbr }
            dv path with
        | mk dvx errx =>
          cases errx with
          | some e => simp [processGroupBy, hrl, hfv] at h
          | none =>
            simp [processGroupBy, hrl, hfv, Prod.mk.injEq] at h
            obtain ⟨h1, h2⟩ := h
            obtain ⟨hg1, hg2⟩ := rowLoop_ok E sg.children sg.uidMatrix
              sg.groupbyRes gbr hrl
            subst h1
            exact ⟨rfl, hg1, hg2⟩
  · intro sg2 dv2 e h
    cases hrl : rowLoop E sg.children sg.uidMatrix sg.groupbyRes with
    | mk gbr err =>
      cases err with
      | some e2 =>
        simp [processGroupBy, hrl, Prod.mk.injEq] at h
        obtain ⟨h1, h2, h3⟩ := h
        subst h1
        rfl
      | none =>
        cases hfv : fillGroupedVars E { sg with groupbyRes := gbr }
            dv path with
        | mk dvx errx =>
          cases errx with
          | some e2 =>
            simp [processGroupBy, hrl, hfv, Prod.mk.injEq] at h
            obtain ⟨h1, h2, h3⟩ := h
            subst h1
            rfl
          | none => simp [processGroupBy, hrl, hfv] at h

/-- A node with no children and a single row `[5]`, for the C9
witness. -/
def sg9 : SubGraph := ⟨[], [[5]], []⟩

/-- The node state a successful `processGroupBy` leaves behind for
`sg9`: one (empty) group result appended, children cleared. -/
def sgOut9 : SubGraph := ⟨[], [[5]], [⟨[]⟩]⟩

/-- Witness for C9: on the one-row childless node the call succeeds,
appends exactly one `groupResults` and clears the children. -/
theorem claim_C9_witness :
    sgOut9.children = [] ∧
    sgOut9.groupbyRes = sg9.groupbyRes ++
      sg9.uidMatrix.map (fun r => okOr (formResult extDummy sg9.children r)) ∧
    ∀ r ∈ sg9.uidMatrix, isOkE (formResult extDummy sg9.children r) = true :=
  (claim_C9 extDummy sg9 [] []).1 sgOut9 [] rfl

end GroupBy
